import Mathlib

/-!
A shallow embedding, in Lean 4, of the core of the
`copilot-plugin-mcp-server` repository (a JavaScript MCP proxy with a
plugin subsystem), together with proofs about its behaviour.

Modelling conventions:
* JavaScript strings are modelled as `List Char` (the abbreviation `Str`).
* JavaScript builtins that are external to the repository
  (`JSON.parse`, `JSON.stringify`, `Date.now`, the filesystem, `git`,
  `npm`) are modelled as explicit parameters/oracles of the functions
  that call them.
* Exceptions are modelled with `Except`; a thrown `Error(msg)` becomes
  `Except.error msg`.
-/

/-- JavaScript strings, modelled as lists of characters. -/
abbrev Str := List Char

/-! ## FramedChannel: `handleGitHubMcpOutput` (src/plugin-server.js 26-60)

The server keeps a shared text buffer `mcpBuffer`; every stdout chunk of
the child process is appended, the buffer is split on `'\n'`, the final
segment (after the last newline) becomes the new buffer, and every
complete line is trimmed-checked and `JSON.parse`d, delivering each
successfully parsed message to the registered handlers. -/

/-- `splitNl s` models JavaScript `s.split('\n')`: the segments of `s`
between newline characters.  The result is never empty; its last element
is the (possibly empty) text after the final newline. -/
def splitNl : Str → List Str
  | [] => [[]]
  | c :: cs =>
    if c = '\n' then [] :: splitNl cs
    else
      match splitNl cs with
      | [] => [[c]]
      | p :: ps => (c :: p) :: ps

/-- The segments before the last one (JavaScript: the array left after
`lines.pop()`). -/
def initSegs : List Str → List Str
  | [] => []
  | [_] => []
  | p :: q :: ps => p :: initSegs (q :: ps)

/-- The last segment (JavaScript: `lines.pop() || ''`). -/
def lastSeg : List Str → Str
  | [] => []
  | [p] => p
  | _ :: q :: ps => lastSeg (q :: ps)

/-- ASCII JavaScript whitespace, as recognised by `trim()` and `\s`. -/
def isWs (c : Char) : Bool :=
  c == ' ' || c == '\t' || c == '\n' || c == '\r' || c == '\x0b' || c == '\x0c'

/-- JavaScript `s.trim()`. -/
def jsTrim (s : Str) : Str :=
  ((s.dropWhile (fun c => isWs c)).reverse.dropWhile (fun c => isWs c)).reverse

/-- Processing of one complete line in `handleGitHubMcpOutput`
(src/plugin-server.js 39-59): a line blank after `trim()` is skipped
(`if (!line.trim()) continue`), otherwise `JSON.parse` — modelled by the
parameter `parse` — either yields a message that is delivered, or throws
and the line is silently dropped (`catch` ignoring parse errors). -/
def emitLine {J : Type} (parse : Str → Option J) (line : Str) : Option J :=
  if jsTrim line = [] then none else parse line

/-- The state of the framed channel: the accumulation buffer `mcpBuffer`
and the ordered record of messages delivered to handlers so far. -/
structure ChannelState (J : Type) where
  buffer : Str
  emitted : List J

/-- One call of `handleGitHubMcpOutput(data)` (src/plugin-server.js
34-60): append the chunk, split on newlines, keep the trailing segment
as the new buffer, process each complete line in order. -/
def pushChunk {J : Type} (parse : Str → Option J) (st : ChannelState J)
    (chunk : Str) : ChannelState J :=
  let parts := splitNl (st.buffer ++ chunk)
  { buffer := lastSeg parts
    emitted := st.emitted ++ (initSegs parts).filterMap (emitLine parse) }

/-- A whole sequence of stdout chunks, fed to the channel in order. -/
def pushChunks {J : Type} (parse : Str → Option J) (st : ChannelState J)
    (chunks : List Str) : ChannelState J :=
  chunks.foldl (pushChunk parse) st

/-- The channel's initial state (`mcpBuffer = ''`, nothing delivered). -/
def initialChannel (J : Type) : ChannelState J := ⟨[], []⟩

theorem splitNl_ne_nil (s : Str) : splitNl s ≠ [] := by
  cases s with
  | nil => simp [splitNl]
  | cons c cs =>
    simp only [splitNl]
    split
    · simp
    · cases h : splitNl cs <;> simp

/-- Gluing a leftover fragment onto the head of a split. -/
def glueSplit (x : Str) : List Str → List Str
  | [] => [x]
  | p :: ps => (x ++ p) :: ps

theorem glueSplit_ne_nil (x : Str) (l : List Str) : glueSplit x l ≠ [] := by
  cases l <;> simp [glueSplit]

theorem glueSplit_cons (x p : Str) (ps : List Str) :
    glueSplit x (p :: ps) = (x ++ p) :: ps := rfl

theorem glueSplit_nil_left (l : List Str) (h : l ≠ []) : glueSplit [] l = l := by
  cases l with
  | nil => exact absurd rfl h
  | cons p ps => simp [glueSplit]

theorem glueSplit_glueSplit (x y : Str) (l : List Str) :
    glueSplit x (glueSplit y l) = glueSplit (x ++ y) l := by
  cases l <;> simp [glueSplit]

theorem initSegs_cons_cons (p q : Str) (ps : List Str) :
    initSegs (p :: q :: ps) = p :: initSegs (q :: ps) := rfl

theorem lastSeg_cons_cons (p q : Str) (ps : List Str) :
    lastSeg (p :: q :: ps) = lastSeg (q :: ps) := rfl

theorem initSegs_cons_of_ne_nil (p : Str) (l : List Str) (h : l ≠ []) :
    initSegs (p :: l) = p :: initSegs l := by
  cases l with
  | nil => exact absurd rfl h
  | cons q qs => rfl

theorem lastSeg_cons_of_ne_nil (p : Str) (l : List Str) (h : l ≠ []) :
    lastSeg (p :: l) = lastSeg l := by
  cases l with
  | nil => exact absurd rfl h
  | cons q qs => rfl

theorem initSegs_append (xs ys : List Str) (hy : ys ≠ []) :
    initSegs (xs ++ ys) = xs ++ initSegs ys := by
  induction xs with
  | nil => rfl
  | cons p xs ih =>
    rw [List.cons_append,
      initSegs_cons_of_ne_nil _ _ (by simp [hy] : xs ++ ys ≠ []), ih,
      List.cons_append]

theorem lastSeg_append (xs ys : List Str) (hy : ys ≠ []) :
    lastSeg (xs ++ ys) = lastSeg ys := by
  induction xs with
  | nil => rfl
  | cons p xs ih =>
    rw [List.cons_append,
      lastSeg_cons_of_ne_nil _ _ (by simp [hy] : xs ++ ys ≠ []), ih]

theorem splitNl_nil : splitNl [] = [[]] := rfl

theorem splitNl_cons_nl (cs : Str) : splitNl ('\n' :: cs) = [] :: splitNl cs := by
  simp [splitNl]

theorem splitNl_cons_ne (c : Char) (cs : Str) (hc : c ≠ '\n') :
    splitNl (c :: cs) = glueSplit [c] (splitNl cs) := by
  simp only [splitNl, if_neg hc]
  cases h : splitNl cs with
  | nil => rfl
  | cons p ps => rfl

theorem splitNl_append (a b : Str) :
    splitNl (a ++ b) =
      initSegs (splitNl a) ++ glueSplit (lastSeg (splitNl a)) (splitNl b) := by
  induction a with
  | nil =>
    rw [List.nil_append, splitNl_nil]
    show splitNl b = [] ++ glueSplit [] (splitNl b)
    rw [List.nil_append, glueSplit_nil_left _ (splitNl_ne_nil b)]
  | cons c cs ih =>
    by_cases hc : c = '\n'
    · subst hc
      rw [List.cons_append, splitNl_cons_nl, splitNl_cons_nl, ih,
        initSegs_cons_of_ne_nil _ _ (splitNl_ne_nil cs),
        lastSeg_cons_of_ne_nil _ _ (splitNl_ne_nil cs), List.cons_append]
    · rw [List.cons_append, splitNl_cons_ne _ _ hc, splitNl_cons_ne _ _ hc, ih]
      cases h : splitNl cs with
      | nil => exact absurd h (splitNl_ne_nil cs)
      | cons q qs =>
        cases qs with
        | nil =>
          simp only [initSegs, lastSeg, List.nil_append]
          rw [glueSplit_glueSplit]
        | cons r rs =>
          simp [glueSplit_cons, initSegs_cons_cons, lastSeg_cons_cons,
            List.cons_append]

theorem mem_splitNl_no_newline (s : Str) :
    ∀ p ∈ splitNl s, '\n' ∉ p := by
  induction s with
  | nil =>
    intro p hp
    simp [splitNl] at hp
    simp [hp]
  | cons c cs ih =>
    intro p hp
    simp only [splitNl] at hp
    by_cases hc : c = '\n'
    · rw [if_pos hc] at hp
      rcases List.mem_cons.1 hp with h | h
      · simp [h]
      · exact ih p h
    · rw [if_neg hc] at hp
      cases h : splitNl cs with
      | nil => exact absurd h (splitNl_ne_nil cs)
      | cons q qs =>
        rw [h] at hp
        rcases List.mem_cons.1 hp with h2 | h2
        · subst h2
          intro hmem
          rcases List.mem_cons.1 hmem with h3 | h3
          · exact hc h3.symm
          · exact ih q (by simp [h]) h3
        · exact ih p (by simp [h, h2])

theorem lastSeg_mem (l : List Str) (h : l ≠ []) : lastSeg l ∈ l := by
  induction l with
  | nil => exact absurd rfl h
  | cons p ps ih =>
    cases ps with
    | nil => simp [lastSeg]
    | cons q qs =>
      have := ih (by simp)
      simp only [lastSeg]
      exact List.mem_cons_of_mem _ this

theorem splitNl_of_no_newline (s : Str) (h : '\n' ∉ s) : splitNl s = [s] := by
  induction s with
  | nil => rfl
  | cons c cs ih =>
    have hc : c ≠ '\n' := fun hcn => h (by simp [hcn])
    have hcs : '\n' ∉ cs := fun hmem => h (List.mem_cons_of_mem _ hmem)
    simp [splitNl, hc, ih hcs]

theorem pushChunk_buffer_no_newline {J : Type} (parse : Str → Option J)
    (st : ChannelState J) (chunk : Str) :
    '\n' ∉ (pushChunk parse st chunk).buffer := by
  simp only [pushChunk]
  exact mem_splitNl_no_newline _ _
    (lastSeg_mem _ (splitNl_ne_nil _))

theorem pushChunk_append {J : Type} (parse : Str → Option J)
    (st : ChannelState J) (a b : Str) :
    pushChunk parse (pushChunk parse st a) b = pushChunk parse st (a ++ b) := by
  have hbuf : '\n' ∉ lastSeg (splitNl (st.buffer ++ a)) :=
    mem_splitNl_no_newline _ _ (lastSeg_mem _ (splitNl_ne_nil _))
  have hS2 : splitNl (lastSeg (splitNl (st.buffer ++ a)) ++ b) =
      glueSplit (lastSeg (splitNl (st.buffer ++ a))) (splitNl b) := by
    rw [splitNl_append, splitNl_of_no_newline _ hbuf]
    simp only [initSegs, lastSeg, List.nil_append]
  have hS : splitNl (st.buffer ++ (a ++ b)) =
      initSegs (splitNl (st.buffer ++ a)) ++
        glueSplit (lastSeg (splitNl (st.buffer ++ a))) (splitNl b) := by
    rw [← List.append_assoc]
    exact splitNl_append _ _
  simp only [pushChunk, hS2, hS]
  rw [ChannelState.mk.injEq]
  constructor
  · rw [lastSeg_append _ _ (glueSplit_ne_nil _ _)]
  · rw [initSegs_append _ _ (glueSplit_ne_nil _ _)]
    simp [List.filterMap_append]

theorem pushChunks_eq_single {J : Type} (parse : Str → Option J)
    (chunks : List Str) (st : ChannelState J) (h : '\n' ∉ st.buffer) :
    pushChunks parse st chunks = pushChunk parse st chunks.flatten := by
  induction chunks generalizing st with
  | nil =>
    -- pushing the empty concatenation from a newline-free buffer is a no-op
    simp only [pushChunks, List.foldl_nil, List.flatten_nil, pushChunk]
    rw [List.append_nil, splitNl_of_no_newline _ h]
    simp [initSegs, lastSeg]
  | cons c cs ih =>
    simp only [pushChunks, List.foldl_cons, List.flatten_cons]
    rw [← pushChunk_append]
    exact ih _ (pushChunk_buffer_no_newline parse st c)

/-- **C2.** For every sequence of byte chunks pushed to the framed
channel (`handleGitHubMcpOutput`), the delivered messages are exactly
those obtained by concatenating all pushed bytes, splitting on the
newline separator, and decoding each complete parseable line, in order —
independently of the chunk boundaries — and the incomplete trailing
fragment (the text after the last newline) is exactly what remains in
the buffer, never having been emitted. -/
theorem framedChannel_chunking_invariance {J : Type} (parse : Str → Option J)
    (chunks : List Str) :
    (pushChunks parse (initialChannel J) chunks).emitted =
      (initSegs (splitNl chunks.flatten)).filterMap (emitLine parse) ∧
    (pushChunks parse (initialChannel J) chunks).buffer =
      lastSeg (splitNl chunks.flatten) := by
  have h := pushChunks_eq_single parse chunks (initialChannel J) (by simp [initialChannel])
  rw [h]
  simp [pushChunk, initialChannel]

/-! ## Pending backend calls: `callGitHubTool` (src/plugin-server.js 176-214)

`callGitHubTool` registers in `mcpHandlers` a handler closed over
`callId` and a `responseReceived` flag, and arms a 30s `setTimeout`.
On a message with matching `id`, the handler records the response,
resolves or rejects the promise, and returns `true`, upon which the
dispatch loop of `handleGitHubMcpOutput` deletes it from the map.  The
timer callback, when it runs, checks `responseReceived`; if still false
it unregisters the handler and rejects with a timeout error.

JavaScript is single threaded, so an execution is a sequence of atomic
events: parsed messages dispatched by `handleGitHubMcpOutput`, and the
one firing of the armed timer. -/

/-- The part of an inbound backend message that `callGitHubTool`'s
handler inspects: its `id` (if any) and whether it carries an `error`
member. -/
structure McpMsg where
  id : Option Int
  isError : Bool
deriving DecidableEq

/-- An atomic event affecting one pending call: a backend message being
dispatched to the handler map, or the call's `setTimeout` callback
running. -/
inductive CallEvent where
  | msg (m : McpMsg)
  | timeoutFire
deriving DecidableEq

/-- The ways the pending call's promise can be settled. -/
inductive CallOutcome where
  | resolved
  | rejectedError
  | rejectedTimeout
deriving DecidableEq

/-- The observable state of one pending `callGitHubTool` invocation:
whether its handler is still in `mcpHandlers`, the handler's captured
`responseReceived` flag, and every settlement of the promise so far (a
double fire would make this list longer than one). -/
structure PendingCall where
  registered : Bool
  responseReceived : Bool
  fired : List CallOutcome
deriving DecidableEq

/-- State just after `callGitHubTool` registered the handler and armed
the timer. -/
def initialPending : PendingCall :=
  { registered := true, responseReceived := false, fired := [] }

/-- One event processed against the pending call, exactly as the source
does it:
* a dispatched message reaches the handler only while it is registered
  (src/plugin-server.js 46-51); on `message.id === callId` the handler
  sets `responseReceived`, rejects if `message.error` else resolves, and
  returns `true` so the dispatch loop deletes it in the same iteration;
* the timer callback (src/plugin-server.js 207-212) fires the timeout
  rejection and unregisters, but only if `responseReceived` is still
  false. -/
def stepCall (callId : Int) (st : PendingCall) : CallEvent → PendingCall
  | CallEvent.msg m =>
    if st.registered then
      if m.id = some callId then
        { registered := false
          responseReceived := true
          fired := st.fired ++
            [if m.isError then CallOutcome.rejectedError else CallOutcome.resolved] }
      else st
    else st
  | CallEvent.timeoutFire =>
    if st.responseReceived then st
    else { st with registered := false
                   fired := st.fired ++ [CallOutcome.rejectedTimeout] }

/-- A whole execution: the events in program order. -/
def runCall (callId : Int) (events : List CallEvent) : PendingCall :=
  events.foldl (stepCall callId) initialPending


/-- No message of the event list carries the call's correlation id. -/
def NoMatch (callId : Int) (es : List CallEvent) : Prop :=
  ∀ m : McpMsg, CallEvent.msg m ∈ es → m.id ≠ some callId

/-- The call has been settled by a matching dispatch: handler removed in
the same loop iteration that fired it, flag set, promise settled once
with the dispatch outcome. -/
def Settled (st : PendingCall) : Prop :=
  st.registered = false ∧ st.responseReceived = true ∧
    (st.fired = [CallOutcome.resolved] ∨ st.fired = [CallOutcome.rejectedError])

theorem stepCall_nonmatching (callId : Int) (st : PendingCall) (m : McpMsg)
    (h : m.id ≠ some callId) : stepCall callId st (CallEvent.msg m) = st := by
  simp [stepCall, h]

theorem stepCall_fixed (callId : Int) (st : PendingCall) (e : CallEvent)
    (h1 : st.registered = false) (h2 : st.responseReceived = true) :
    stepCall callId st e = st := by
  cases e with
  | msg m => simp [stepCall, h1]
  | timeoutFire => simp [stepCall, h2]

theorem run_fixed (callId : Int) (es : List CallEvent) (st : PendingCall)
    (h1 : st.registered = false) (h2 : st.responseReceived = true) :
    es.foldl (stepCall callId) st = st := by
  induction es with
  | nil => rfl
  | cons e es ih => rw [List.foldl_cons, stepCall_fixed callId st e h1 h2, ih]

theorem run_msgs_unregistered (callId : Int) (es : List CallEvent)
    (st : PendingCall) (hm : ∀ e ∈ es, e ≠ CallEvent.timeoutFire)
    (h1 : st.registered = false) :
    es.foldl (stepCall callId) st = st := by
  induction es with
  | nil => rfl
  | cons e es ih =>
    cases e with
    | msg m =>
      rw [List.foldl_cons]
      have : stepCall callId st (CallEvent.msg m) = st := by
        simp [stepCall, h1]
      rw [this]
      exact ih (fun e he => hm e (List.mem_cons_of_mem _ he))
    | timeoutFire => exact absurd rfl (hm _ (List.mem_cons_self _ _))

/-- After a timeout-free event prefix starting from registration, either
no message matched and the call is still pending untouched, or some
message matched and the call is settled (once, with a dispatch
outcome). -/
theorem run_pre_cases (callId : Int) (es : List CallEvent)
    (hm : ∀ e ∈ es, e ≠ CallEvent.timeoutFire) :
    (es.foldl (stepCall callId) initialPending = initialPending ∧
      NoMatch callId es) ∨
    (Settled (es.foldl (stepCall callId) initialPending) ∧
      ¬ NoMatch callId es) := by
  induction es with
  | nil =>
    left
    exact ⟨rfl, fun m hmem => absurd hmem (List.not_mem_nil _)⟩
  | cons e es ih =>
    cases e with
    | msg m =>
      by_cases hid : m.id = some callId
      · right
        have hstep : stepCall callId initialPending (CallEvent.msg m) =
            { registered := false, responseReceived := true,
              fired := [if m.isError then CallOutcome.rejectedError
                        else CallOutcome.resolved] } := by
          simp [stepCall, initialPending, hid]
        constructor
        · rw [List.foldl_cons, hstep, run_fixed callId es _ rfl rfl]
          refine ⟨rfl, rfl, ?_⟩
          by_cases he : m.isError <;> simp [he]
        · intro hno
          exact hno m (List.mem_cons_self _ _) hid
      · rw [List.foldl_cons, stepCall_nonmatching callId _ m hid]
        rcases ih (fun e he => hm e (List.mem_cons_of_mem _ he)) with
          ⟨hst, hno⟩ | ⟨hst, hno⟩
        · left
          refine ⟨hst, fun m' hmem => ?_⟩
          rcases List.mem_cons.1 hmem with h | h
          · intro hceq
            apply hid
            have hmm : m' = m := by simpa using h
            rw [← hmm]
            exact hceq
          · exact hno m' h
        · right
          refine ⟨hst, fun hno2 => ?_⟩
          exact hno (fun m' hmem => hno2 m' (List.mem_cons_of_mem _ hmem))
    | timeoutFire => exact absurd rfl (hm _ (List.mem_cons_self _ _))

/-- **C1.** For every pending backend call (`callGitHubTool`'s handler
paired with its 30-second timer), exactly one of matching-response
dispatch and timeout expiry settles the call — never both, never zero —
and first-writer-wins: the settlement is the timeout rejection precisely
when no message with the call's correlation id was dispatched before the
timer fired.  An execution is any interleaving `pre ++ [timer] ++ post`
of dispatched messages around the single firing of the armed timer. -/
theorem pendingCall_exactly_once (callId : Int) (pre post : List CallEvent)
    (hpre : ∀ e ∈ pre, e ≠ CallEvent.timeoutFire)
    (hpost : ∀ e ∈ post, e ≠ CallEvent.timeoutFire) :
    (runCall callId (pre ++ CallEvent.timeoutFire :: post)).fired.length = 1 ∧
    ((runCall callId (pre ++ CallEvent.timeoutFire :: post)).fired =
        [CallOutcome.rejectedTimeout] ↔ NoMatch callId pre) := by
  have hsplit : runCall callId (pre ++ CallEvent.timeoutFire :: post) =
      post.foldl (stepCall callId)
        (stepCall callId (pre.foldl (stepCall callId) initialPending)
          CallEvent.timeoutFire) := by
    simp [runCall, List.foldl_append]
  rcases run_pre_cases callId pre hpre with ⟨hst, hno⟩ | ⟨hst, hno⟩
  · -- nothing matched before the timer: the timeout rejection fires
    have hT : stepCall callId (pre.foldl (stepCall callId) initialPending)
        CallEvent.timeoutFire =
        { registered := false, responseReceived := false,
          fired := [CallOutcome.rejectedTimeout] } := by
      rw [hst]
      simp [stepCall, initialPending]
    have hfinal : runCall callId (pre ++ CallEvent.timeoutFire :: post) =
        { registered := false, responseReceived := false,
          fired := [CallOutcome.rejectedTimeout] } := by
      rw [hsplit, hT]
      exact run_msgs_unregistered callId post _ hpost rfl
    rw [hfinal]
    exact ⟨rfl, ⟨fun _ => hno, fun _ => rfl⟩⟩
  · -- a matching message settled the call first: the timer is a no-op
    obtain ⟨h1, h2, h3⟩ := hst
    have hT : stepCall callId (pre.foldl (stepCall callId) initialPending)
        CallEvent.timeoutFire = pre.foldl (stepCall callId) initialPending :=
      stepCall_fixed callId _ _ h1 h2
    have hfinal : runCall callId (pre ++ CallEvent.timeoutFire :: post) =
        pre.foldl (stepCall callId) initialPending := by
      rw [hsplit, hT]
      exact run_fixed callId post _ h1 h2
    rw [hfinal]
    constructor
    · rcases h3 with h | h <;> simp [h]
    · constructor
      · intro hfired
        rcases h3 with h | h <;> rw [h] at hfired <;> exact absurd hfired (by simp)
      · intro hno2
        exact absurd hno2 hno

/-- Closed instance of `pendingCall_exactly_once`: a non-matching
message, then the timer, then a late matching message — the call settles
exactly once, with the timeout rejection. -/
theorem pendingCall_exactly_once_witness :
    (runCall 7 [CallEvent.msg ⟨some 3, false⟩, CallEvent.timeoutFire,
        CallEvent.msg ⟨some 7, false⟩]).fired.length = 1 ∧
    ((runCall 7 [CallEvent.msg ⟨some 3, false⟩, CallEvent.timeoutFire,
        CallEvent.msg ⟨some 7, false⟩]).fired =
        [CallOutcome.rejectedTimeout] ↔
      NoMatch 7 [CallEvent.msg ⟨some 3, false⟩]) := by
  have h := pendingCall_exactly_once 7 [CallEvent.msg ⟨some 3, false⟩]
    [CallEvent.msg ⟨some 7, false⟩] (by decide) (by decide)
  simpa using h

/-! ## Description compression: `compressDescription` (src/plugin-server.js 219-234)

Six sequential global, case-insensitive literal replacements, then
whitespace-run collapse (`\s+` to a single space), `trim()`, cut at the
first sentence terminator (`split(/[.!?]/)[0]`), and a hard cap of 100
characters. -/

/-- Case-insensitive character comparison (the regex `i` flag). -/
def ciEq (a b : Char) : Bool := a.toLower == b.toLower

/-- Does the literal pattern match at the start of the text,
case-insensitively? -/
def ciStarts : Str → Str → Bool
  | [], _ => true
  | _ :: _, [] => false
  | p :: ps, c :: cs => ciEq p c && ciStarts ps cs

/-- The first alternative of the regex that matches at this position
(JavaScript alternation tries alternatives left to right). -/
def firstHit (pats : List Str) (s : Str) : Option Str :=
  pats.find? (fun p => ciStarts p s)

/-- Global replacement of literal alternatives, scanning left to right:
on a match, emit the replacement and resume after the matched text; else
advance one character.  The `Nat` argument counts characters of the
current match still to be consumed. -/
def replaceAllAux (pats : List Str) (rep : Str) : Nat → Str → Str
  | _, [] => []
  | Nat.succ k, _ :: cs => replaceAllAux pats rep k cs
  | 0, c :: cs =>
    match firstHit pats (c :: cs) with
    | some p => rep ++ replaceAllAux pats rep (p.length - 1) cs
    | none => c :: replaceAllAux pats rep 0 cs

/-- JavaScript `s.replace(/pat1|pat2|…/gi, rep)` for literal
alternatives. -/
def replaceAll (pats : List Str) (rep : Str) (s : Str) : Str :=
  replaceAllAux pats rep 0 s

/-- JavaScript `s.replace(/\s+/g, ' ')`: each maximal whitespace run
becomes one space.  The flag records whether we are inside a run. -/
def collapseWsM : Bool → Str → Str
  | _, [] => []
  | inWs, c :: cs =>
    if isWs c then
      if inWs then collapseWsM true cs else ' ' :: collapseWsM true cs
    else c :: collapseWsM false cs

def collapseWs (s : Str) : Str := collapseWsM false s

/-- The alternatives of the first replacement's regex, in source order. -/
def toolPhrasePats : List Str :=
  [ r"This tool allows you to".toList, r"This tool enables you to".toList,
    r"This tool lets you".toList, r"This tool helps you".toList ]

/-- The alternatives of the second replacement's regex. -/
def useToolPats : List Str :=
  [ r"Use this tool when".toList, r"Use this tool to".toList ]

/-- `compressDescription(desc)` (src/plugin-server.js 219-234). -/
def compressDescription (desc : Str) : Str :=
  if desc = [] then []
  else
    let s1 := replaceAll toolPhrasePats [] desc
    let s2 := replaceAll useToolPats [] s1
    let s3 := replaceAll [ r"GitHub repository".toList ] ( r"repo".toList) s2
    let s4 := replaceAll [ r"pull request".toList ] ( r"PR".toList) s3
    let s5 := replaceAll [ r"repositories".toList ] ( r"repos".toList) s4
    let s6 := replaceAll [ r"commit SHA".toList ] ( r"commit".toList) s5
    let compressed := jsTrim (collapseWs s6)
    let firstSentence :=
      compressed.takeWhile (fun c => !(c == '.' || c == '!' || c == '?'))
    if firstSentence.length > 100 then firstSentence.take 100 else firstSentence

theorem ciStarts_length (p s : Str) (h : ciStarts p s = true) :
    p.length ≤ s.length := by
  induction p generalizing s with
  | nil => simp
  | cons x xs ih =>
    cases s with
    | nil => simp [ciStarts] at h
    | cons c cs =>
      simp only [ciStarts, Bool.and_eq_true] at h
      simpa using ih cs h.2

theorem firstHit_mem (pats : List Str) (s : Str) (p : Str)
    (h : firstHit pats s = some p) : p ∈ pats ∧ ciStarts p s = true := by
  unfold firstHit at h
  exact ⟨List.mem_of_find?_eq_some h, by
    have := List.find?_some h
    simpa using this⟩

theorem replaceAllAux_length (pats : List Str) (rep : Str)
    (hrep : ∀ p ∈ pats, rep.length ≤ p.length) :
    ∀ (k : Nat) (s : Str), (replaceAllAux pats rep k s).length ≤ s.length - k := by
  intro k s
  induction s generalizing k with
  | nil => simp [replaceAllAux]
  | cons c cs ih =>
    cases k with
    | succ k' =>
      have := ih k'
      simp only [replaceAllAux, List.length_cons]
      omega
    | zero =>
      simp only [replaceAllAux]
      cases hfh : firstHit pats (c :: cs) with
      | some p =>
        obtain ⟨hmem, hstarts⟩ := firstHit_mem pats (c :: cs) p hfh
        have hlen : p.length ≤ cs.length + 1 := by
          have := ciStarts_length p (c :: cs) hstarts
          simpa using this
        have hr : rep.length ≤ p.length := hrep p hmem
        have := ih (p.length - 1)
        simp only [List.length_append, List.length_cons]
        omega
      | none =>
        have := ih 0
        simp only [List.length_cons]
        omega

theorem replaceAll_length (pats : List Str) (rep : Str) (s : Str)
    (hrep : ∀ p ∈ pats, rep.length ≤ p.length) :
    (replaceAll pats rep s).length ≤ s.length := by
  have := replaceAllAux_length pats rep hrep 0 s
  simpa [replaceAll] using this

theorem collapseWsM_length (b : Bool) (s : Str) :
    (collapseWsM b s).length ≤ s.length := by
  induction s generalizing b with
  | nil => simp [collapseWsM]
  | cons c cs ih =>
    simp only [collapseWsM]
    by_cases hc : isWs c = true
    · rw [if_pos hc]
      cases b with
      | true =>
        have := ih true
        simp only [if_true, List.length_cons]
        omega
      | false =>
        have := ih true
        simp only [Bool.false_eq_true, if_false, List.length_cons]
        omega
    · rw [if_neg hc]
      have := ih false
      simp only [List.length_cons]
      omega

theorem length_dropWhile_le (p : Char → Bool) (l : Str) :
    (l.dropWhile p).length ≤ l.length := by
  induction l with
  | nil => simp
  | cons c cs ih =>
    by_cases h : p c = true
    · rw [List.dropWhile_cons_of_pos h]
      simp only [List.length_cons]
      omega
    · rw [List.dropWhile_cons_of_neg h]

theorem length_takeWhile_le (p : Char → Bool) (l : Str) :
    (l.takeWhile p).length ≤ l.length := by
  induction l with
  | nil => simp
  | cons c cs ih =>
    by_cases h : p c = true
    · rw [List.takeWhile_cons_of_pos h]
      simp only [List.length_cons]
      omega
    · rw [List.takeWhile_cons_of_neg h]
      simp

theorem jsTrim_length (s : Str) : (jsTrim s).length ≤ s.length := by
  unfold jsTrim
  calc ((s.dropWhile (fun c => isWs c)).reverse.dropWhile
          (fun c => isWs c)).reverse.length
      = ((s.dropWhile (fun c => isWs c)).reverse.dropWhile
          (fun c => isWs c)).length := List.length_reverse _
    _ ≤ (s.dropWhile (fun c => isWs c)).reverse.length :=
        length_dropWhile_le _ _
    _ = (s.dropWhile (fun c => isWs c)).length := List.length_reverse _
    _ ≤ s.length := length_dropWhile_le _ _

theorem collapseWs_length (s : Str) : (collapseWs s).length ≤ s.length :=
  collapseWsM_length false s

/-- The final sentence-truncation steps of `compressDescription`. -/
theorem truncation_length (t : Str) (P : Char → Bool) :
    (if (t.takeWhile P).length > 100 then (t.takeWhile P).take 100
     else t.takeWhile P).length ≤ t.length := by
  have h1 : (t.takeWhile P).length ≤ t.length := length_takeWhile_le _ _
  split
  · rw [List.length_take]
    omega
  · exact h1

/-- **C8 (amended).** The description compression never produces output
longer than its input. -/
theorem compressDescription_length (desc : Str) :
    (compressDescription desc).length ≤ desc.length := by
  by_cases h : desc = []
  · simp [compressDescription, h]
  · rw [compressDescription.eq_def, if_neg h]
    refine le_trans (truncation_length _ _) ?_
    refine le_trans (jsTrim_length _) ?_
    refine le_trans (collapseWs_length _) ?_
    refine le_trans (replaceAll_length _ _ _ (by decide)) ?_
    refine le_trans (replaceAll_length _ _ _ (by decide)) ?_
    refine le_trans (replaceAll_length _ _ _ (by decide)) ?_
    refine le_trans (replaceAll_length _ _ _ (by decide)) ?_
    refine le_trans (replaceAll_length _ _ _ (by decide)) ?_
    exact replaceAll_length _ _ _ (by decide)

/-- **C8 (counterexample).** `compressDescription` is not idempotent:
erasing one occurrence of a "This tool lets you" phrase and collapsing
whitespace can create a fresh occurrence, which a second pass erases. -/
theorem compressDescription_not_idempotent :
    compressDescription (compressDescription
        ( r"This This tool lets you tool lets you x".toList)) ≠
      compressDescription ( r"This This tool lets you tool lets you x".toList) := by
  decide

/-! ## JSON values and tool schemas

Opaque JSON payloads (tool arguments and results) and the
JSON-Schema-shaped objects that `simplifySchema` manipulates. -/

/-- An opaque JSON value, used for tool-call arguments and results. -/
inductive JsonV where
  | null
  | str (s : Str)
  | num (n : Int)
  | bool (b : Bool)
  | arr (xs : List JsonV)
  | obj (fields : List (Str × JsonV))

/-- The shape of the schema objects the server manipulates: the fields
its code reads (`type`, `description`, `enum`, `items`, `properties`,
`required`).  `simplifySchema` copies a schema and rebuilds `properties`
keeping only `type`/`enum`/`items`/`properties` of each property. -/
inductive Schema where
  | mk (type : Option Str) (description : Option Str)
       (enum : Option (List Str)) (items : Option Schema)
       (properties : Option (List (Str × Schema)))
       (required : Option (List Str))

def Schema.type : Schema → Option Str
  | Schema.mk t _ _ _ _ _ => t

def Schema.description : Schema → Option Str
  | Schema.mk _ d _ _ _ _ => d

def Schema.enum : Schema → Option (List Str)
  | Schema.mk _ _ e _ _ _ => e

def Schema.items : Schema → Option Schema
  | Schema.mk _ _ _ i _ _ => i

def Schema.properties : Schema → Option (List (Str × Schema))
  | Schema.mk _ _ _ _ p _ => p

def Schema.required : Schema → Option (List Str)
  | Schema.mk _ _ _ _ _ r => r

theorem sizeOf_items_lt (s sub : Schema) (h : s.items = some sub) :
    sizeOf sub < sizeOf s := by
  cases s with
  | mk t d e i p r =>
    simp only [Schema.items] at h
    subst h
    simp [Schema.mk.sizeOf_spec]
    omega

/-- `simplifySchema(schema)` (src/plugin-server.js 239-258): copy the
schema; when it has `properties`, rebuild each property value keeping
its `type` and `enum`, recursively simplifying its `items`, and keeping
the `properties` of its own simplification — dropping the property's
`description` (and `required`). -/
def simplifySchema : Schema → Schema
  | Schema.mk ty d en it none req => Schema.mk ty d en it none req
  | Schema.mk ty d en it (some props) req =>
    Schema.mk ty d en it
      (some (props.attach.map (fun q =>
        (q.1.1,
          Schema.mk q.1.2.type none q.1.2.enum
            (match hit : q.1.2.items with
             | some sub => some (simplifySchema sub)
             | none => none)
            (simplifySchema q.1.2).properties
            none))))
      req
decreasing_by
  · rcases q with ⟨⟨a, b⟩, hq⟩
    have hm := List.sizeOf_lt_of_mem hq
    have hsub := sizeOf_items_lt _ _ hit
    simp only [Prod.mk.sizeOf_spec, Schema.mk.sizeOf_spec,
      Option.some.sizeOf_spec] at hm hit hsub ⊢
    omega
  · rcases q with ⟨⟨a, b⟩, hq⟩
    have hm := List.sizeOf_lt_of_mem hq
    simp only [Prod.mk.sizeOf_spec, Schema.mk.sizeOf_spec,
      Option.some.sizeOf_spec] at hm ⊢
    omega

/-- JavaScript `schema && typeof schema === 'object'` guard of
`simplifySchema`: a missing schema passes through. -/
def simplifySchemaOpt : Option Schema → Option Schema
  | none => none
  | some s => some (simplifySchema s)

/-! ## PluginManager (src/unnamed/part_002 = plugin-manager.js)

The manager stores a JSON document `plugins.json` mapping plugin name to
record, keeps plugin directories under one plugin directory, and holds
an in-memory `Map` of loaded plugin modules.  JavaScript objects and
`Map`s preserve (string-)key insertion order, so both are modelled as
ordered association lists. -/

/-- `obj[k]`: JavaScript object / `Map` lookup. -/
def objGet {β : Type} (m : List (Str × β)) (k : Str) : Option β :=
  (m.find? (fun p => decide (p.1 = k))).map Prod.snd

/-- `obj[k] = v` / `Map.set`: overwrite in place or append a new key. -/
def objSet {β : Type} (m : List (Str × β)) (k : Str) (v : β) : List (Str × β) :=
  if (objGet m k).isSome then
    m.map (fun p => if p.1 = k then (k, v) else p)
  else m ++ [(k, v)]

/-- `delete obj[k]` / `Map.delete`. -/
def objDelete {β : Type} (m : List (Str × β)) (k : Str) : List (Str × β) :=
  m.filter (fun p => decide (¬ p.1 = k))

/-- JavaScript `a || b` for an optional string (`undefined` and `''` are
falsy). -/
def jsOr (o : Option Str) (d : Str) : Str :=
  match o with
  | some v => if v = [] then d else v
  | none => d

/-- A parsed plugin manifest (`plugin.json`): the fields the manager
reads.  `nspace` models its `namespace` property. -/
structure Manifest where
  version : Option Str
  description : Option Str
  nspace : Option Str
deriving DecidableEq

/-- A persisted plugin record (the value stored under the plugin's name
in `plugins.json`, plugin-manager.js 125-131). -/
structure PluginRecord where
  spec : Str
  version : Str
  enabled : Bool
  installedAt : Nat
  manifest : Manifest
deriving DecidableEq

/-- The persisted metadata document. -/
structure Metadata where
  plugins : List (Str × PluginRecord)
deriving DecidableEq

/-- The manager's on-disk world: the metadata file's read-and-parse
outcome, and which plugin directories exist (paths abstracted to their
name under the plugin directory). -/
structure PMDisk where
  raw : Except Unit Metadata
  dirs : List Str

/-- `loadMetadata()` (plugin-manager.js 34-41): read and parse
`plugins.json`; any read or parse failure yields `{ plugins: {} }`. -/
def loadMetadata (raw : Except Unit Metadata) : Metadata :=
  match raw with
  | Except.ok m => m
  | Except.error _ => ⟨[]⟩

/-- `listPlugins()` (plugin-manager.js 53-59): the entries of
`metadata.plugins` as `{name, ...info}` records, in document order. -/
def listPlugins (raw : Except Unit Metadata) : List (Str × PluginRecord) :=
  (loadMetadata raw).plugins

/-- The error message `Plugin ${name} not found`. -/
def notFoundMsg (name : Str) : Str :=
  r"Plugin ".toList ++ name ++ r" not found".toList

/-- `uninstallPlugin(name)` (plugin-manager.js 155-170). -/
def uninstallPlugin (disk : PMDisk) (name : Str) : Except Str (PMDisk × Str) :=
  let metadata := loadMetadata disk.raw
  match objGet metadata.plugins name with
  | none => Except.error (notFoundMsg name)
  | some _ =>
    let dirs1 := disk.dirs.filter (fun d => decide (¬ d = name))
    Except.ok ({ raw := Except.ok ⟨objDelete metadata.plugins name⟩,
                 dirs := dirs1 }, name)

/-- `enablePlugin(name)` (plugin-manager.js 175-185). -/
def enablePlugin (disk : PMDisk) (name : Str) : Except Str (PMDisk × Str) :=
  let metadata := loadMetadata disk.raw
  match objGet metadata.plugins name with
  | none => Except.error (notFoundMsg name)
  | some info =>
    let newMeta : Metadata := ⟨objSet metadata.plugins name { info with enabled := true }⟩
    Except.ok ({ disk with raw := Except.ok newMeta }, name)

/-- `disablePlugin(name)` (plugin-manager.js 190-200). -/
def disablePlugin (disk : PMDisk) (name : Str) : Except Str (PMDisk × Str) :=
  let metadata := loadMetadata disk.raw
  match objGet metadata.plugins name with
  | none => Except.error (notFoundMsg name)
  | some info =>
    let newMeta : Metadata := ⟨objSet metadata.plugins name { info with enabled := false }⟩
    Except.ok ({ disk with raw := Except.ok newMeta }, name)

/-- `getPluginInfo(name)` (plugin-manager.js 283-295). -/
def getPluginInfo (disk : PMDisk) (name : Str) :
    Except Str (Str × PluginRecord) :=
  let metadata := loadMetadata disk.raw
  match objGet metadata.plugins name with
  | none => Except.error (notFoundMsg name)
  | some info => Except.ok (name, info)

/-- The regex `^@([^/]+)\/([^/]+)(?:\/(.+))?$` of `installPlugin`
(plugin-manager.js 67): owner and repo are nonempty runs of characters
other than `/`; the optional subpath is a nonempty remainder, in which
`.` excludes line terminators (modelled for the ASCII ones). -/
def parseSpec (s : Str) : Option (Str × Str × Option Str) :=
  match s with
  | [] => none
  | c :: rest =>
    if c = '@' then
      let owner := rest.takeWhile (fun x => x != '/')
      let r1 := rest.dropWhile (fun x => x != '/')
      match owner, r1 with
      | [], _ => none
      | _ :: _, [] => none
      | _ :: _, _ :: r2 =>
        let repo := r2.takeWhile (fun x => x != '/')
        let r3 := r2.dropWhile (fun x => x != '/')
        match repo, r3 with
        | [], _ => none
        | _ :: _, [] => some (owner, repo, none)
        | _ :: _, _ :: r4 =>
          if r4 ≠ [] ∧ r4.all (fun x => !(x == '\n' || x == '\r')) then
            some (owner, repo, some r4)
          else none
    else none

/-- The derived plugin name (plugin-manager.js 73): slashes of the
subpath become hyphens. -/
def pluginName (owner repo : Str) (subpath : Option Str) : Str :=
  match subpath with
  | some sp =>
    owner ++ r"-".toList ++ repo ++ r"-".toList ++
      sp.map (fun c => if c = '/' then '-' else c)
  | none => owner ++ r"-".toList ++ repo

/-- Oracles for the external effects of one `installPlugin` call: the
outcome of `git clone`, whether a failed clone left the temp directory
behind, whether the requested subpath exists in the clone, whether
`plugin.json` exists and how `JSON.parse` of it goes, whether
`package.json` exists and whether `npm install` succeeds. -/
structure InstallEnv where
  cloneOk : Bool
  cloneLeavesTemp : Bool
  subpathPresent : Bool
  manifestPresent : Bool
  manifestParsed : Except Unit Manifest
  hasPackageJson : Bool
  npmOk : Bool

/-- The successful return value of `installPlugin` (134-139). -/
structure InstallResult where
  name : Str
  version : Str
  description : Str
deriving DecidableEq

/-- The `catch` of `installPlugin` (plugin-manager.js 140-148): remove
the permanent and temporary directories if they exist, then rethrow. -/
def installCleanup (disk : PMDisk) (pluginPath tempDir : Str) : PMDisk :=
  let kept := (disk.dirs.filter (fun d => decide (¬ d = pluginPath))).filter
    (fun d => decide (¬ d = tempDir))
  { disk with dirs := kept }

/-- `installPlugin(spec)` (plugin-manager.js 65-150).  `tempDir` is the
freshly generated `_temp_${Date.now()}` path and `now` the install
timestamp.  Returns the manager's disk state after the call together
with the call's outcome. -/
def installPlugin (env : InstallEnv) (tempDir : Str) (now : Nat)
    (disk : PMDisk) (spec : Str) : PMDisk × Except Str InstallResult :=
  match parseSpec spec with
  | none =>
    (disk, Except.error ( r"Invalid plugin spec: ".toList ++ spec ++
      r". Use @owner/repo or @owner/repo/subpath".toList))
  | some (owner, repo, subpath) =>
    let name := pluginName owner repo subpath
    let metadata := loadMetadata disk.raw
    if (objGet metadata.plugins name).isSome then
      (disk, Except.error ( r"Plugin ".toList ++ name ++
        r" already installed".toList))
    else if env.cloneOk = false then
      -- `git clone` threw; the catch removes both directories
      let disk1 :=
        if env.cloneLeavesTemp then { disk with dirs := disk.dirs ++ [tempDir] }
        else disk
      (installCleanup disk1 name tempDir,
        Except.error ( r"git clone failed".toList))
    else
      let disk1 := { disk with dirs := disk.dirs ++ [tempDir] }
      let sourceOk := match subpath with
        | none => true
        | some _ => env.subpathPresent
      if sourceOk = false then
        (installCleanup disk1 name tempDir,
          Except.error ( r"Subpath ".toList ++
            (match subpath with | some sp => sp | none => []) ++
            r" not found in repository".toList))
      else
        -- renameSync(sourceDir, pluginPath); when there is no subpath the
        -- temp directory itself is moved away
        let disk2 := match subpath with
          | none =>
            let kept := disk1.dirs.filter (fun d => decide (¬ d = tempDir))
            { disk1 with dirs := kept ++ [name] }
          | some _ => { disk1 with dirs := disk1.dirs ++ [name] }
        -- `if (fs.existsSync(tempDir)) fs.rmSync(tempDir)`
        let kept3 := disk2.dirs.filter (fun d => decide (¬ d = tempDir))
        let disk3 := { disk2 with dirs := kept3 }
        if env.manifestPresent = false then
          (installCleanup disk3 name tempDir,
            Except.error ( r"Plugin manifest (plugin.json) not found".toList))
        else
          match env.manifestParsed with
          | Except.error _ =>
            (installCleanup disk3 name tempDir,
              Except.error ( r"JSON parse error in plugin.json".toList))
          | Except.ok manifest =>
            if env.hasPackageJson ∧ env.npmOk = false then
              (installCleanup disk3 name tempDir,
                Except.error ( r"npm install failed".toList))
            else
              let record : PluginRecord :=
                { spec := spec
                  version := jsOr manifest.version ( r"1.0.0".toList)
                  enabled := true
                  installedAt := now
                  manifest := manifest }
              let newMeta : Metadata := ⟨objSet metadata.plugins name record⟩
              ({ disk3 with raw := Except.ok newMeta },
                Except.ok
                  { name := name
                    version := jsOr manifest.version ( r"1.0.0".toList)
                    description := jsOr manifest.description
                      ( r"No description".toList) })

/-- A tool descriptor as returned by a plugin module's `getTools()`. -/
structure PluginToolDef where
  name : Str
  description : Str
  inputSchema : Option Schema

/-- A tool descriptor in the aggregated catalog.  Backend and management
tools have no `pluginName`; plugin tools are tagged with their owning
plugin (plugin-manager.js 249-253). -/
structure AggTool where
  name : Str
  description : Str
  inputSchema : Option Schema
  pluginName : Option Str

/-- A loaded plugin module: `getTools` and `executeTool` are `none` when
the loaded object has no such function; a present capability either
returns or throws.  `manifestProp` is the module object's own `manifest`
property (which `executePluginTool` consults). -/
structure PluginModule where
  getTools : Option (Except Str (List PluginToolDef))
  executeTool : Option (Str → Option JsonV → Except Str JsonV)
  manifestProp : Option Manifest

/-- An entry of the in-memory `loadedPlugins` map
(plugin-manager.js 224-227). -/
structure LoadedPlugin where
  module : PluginModule
  manifest : Manifest

/-- `loadPlugins()` (plugin-manager.js 205-236).  The oracle `modules`
gives, per plugin name, the loaded module when `<dir>/index.js` exists
and `require` of it succeeds, else `none` (the source logs and continues
in both cases).  Note that the source never clears `this.loadedPlugins`:
it only sets entries for the currently enabled plugins, and returns the
total size of the map. -/
def loadPlugins (modules : Str → Option PluginModule)
    (raw : Except Unit Metadata) (loaded : List (Str × LoadedPlugin)) :
    List (Str × LoadedPlugin) × Nat :=
  let metadata := loadMetadata raw
  let enabledPlugins := metadata.plugins.filter (fun p => p.2.enabled)
  let newLoaded := enabledPlugins.foldl (fun acc p =>
    match modules p.1 with
    | none => acc
    | some m => objSet acc p.1 ⟨m, p.2.manifest⟩) loaded
  (newLoaded, newLoaded.length)

/-- `getPluginTools()` (plugin-manager.js 241-262): for each loaded
plugin, in map order, whose module exposes a `getTools` function, append
its tools, renaming each to
`(manifest.namespace || pluginName) + '_' + tool.name` and tagging it
with the owning plugin; a throwing `getTools` is skipped with a log. -/
def getPluginTools (loaded : List (Str × LoadedPlugin)) : List AggTool :=
  loaded.foldl (fun tools p =>
    match p.2.module.getTools with
    | none => tools
    | some (Except.error _) => tools
    | some (Except.ok ts) =>
      tools ++ ts.map (fun t =>
        { name := jsOr p.2.manifest.nspace p.1 ++ r"_".toList ++ t.name
          description := t.description
          inputSchema := t.inputSchema
          pluginName := some p.1 })) []

/-- `executePluginTool(toolName, args)` (plugin-manager.js 267-278).
The prefix test reads `module.manifest?.namespace` — a property of the
loaded *module* object, not the manifest stored beside it; when the
chain is `undefined`, JavaScript's `startsWith` coerces it to the
string `"undefined"`. -/
def executePluginTool : List (Str × LoadedPlugin) → Str → Option JsonV →
    Except Str JsonV
  | [], toolName, _ =>
    Except.error ( r"No plugin found to handle tool: ".toList ++ toolName)
  | (name, lp) :: rest, toolName, args =>
    let nsArg : Str := match lp.module.manifestProp with
      | some man =>
        match man.nspace with
        | some ns => ns
        | none => r"undefined".toList
      | none => r"undefined".toList
    if name.isPrefixOf toolName || nsArg.isPrefixOf toolName then
      match lp.module.executeTool with
      | some f => f toolName args
      | none => executePluginTool rest toolName args
    else executePluginTool rest toolName args

/-- **C10.** Reading the persisted plugin registry never raises: when the
document is missing, unreadable or unparseable (`raw` is an error), every
store operation behaves as if the store were empty — listing returns the
empty list, and uninstall/enable/disable/info on any name report the
not-found error — instead of propagating the read failure. -/
theorem corruptMetadata_acts_empty (dirs : List Str) (n : Str) :
    listPlugins (Except.error ()) = [] ∧
    uninstallPlugin ⟨Except.error (), dirs⟩ n = Except.error (notFoundMsg n) ∧
    enablePlugin ⟨Except.error (), dirs⟩ n = Except.error (notFoundMsg n) ∧
    disablePlugin ⟨Except.error (), dirs⟩ n = Except.error (notFoundMsg n) ∧
    getPluginInfo ⟨Except.error (), dirs⟩ n = Except.error (notFoundMsg n) :=
  ⟨rfl, rfl, rfl, rfl, rfl⟩

/-- A plugin module used in concrete scenarios: one tool `t`, a working
`executeTool`, and (as for every ordinary CommonJS plugin module) no
`manifest` property on the module object itself. -/
def alphaModule : PluginModule :=
  { getTools := some (Except.ok
      [{ name := r"t".toList, description := r"d".toList, inputSchema := none }])
    executeTool := some (fun _ _ => Except.ok (JsonV.str ( r"ok".toList)))
    manifestProp := none }

/-- A manifest declaring the namespace `ns`. -/
def nsManifest : Manifest := ⟨none, none, some ( r"ns".toList)⟩

/-- A manifest declaring no namespace. -/
def plainManifest : Manifest := ⟨none, none, none⟩

/-- Loaded-plugin registry holding plugin `alpha` with namespace `ns`. -/
def loadedAlphaNs : List (Str × LoadedPlugin) :=
  [( r"alpha".toList, { module := alphaModule, manifest := nsManifest })]

/-- Loaded-plugin registry holding plugin `alpha` without a namespace. -/
def loadedAlphaPlain : List (Str × LoadedPlugin) :=
  [( r"alpha".toList, { module := alphaModule, manifest := plainManifest })]

/-- **C9 (code bug).** Plugin `alpha` declares manifest namespace `ns`,
so enumeration qualifies its tool as `ns_t`; but invoking that very name
raises the not-found error, because `executePluginTool` reads
`module.manifest?.namespace` from the module object (absent, coerced to
`"undefined"`) instead of the stored manifest, so neither prefix test
matches. -/
theorem executePluginTool_namespaced_unroutable :
    (getPluginTools loadedAlphaNs).map AggTool.name = [ r"ns_t".toList ] ∧
    executePluginTool loadedAlphaNs ( r"ns_t".toList) none =
      Except.error ( r"No plugin found to handle tool: ns_t".toList) :=
  ⟨rfl, rfl⟩

/-- The record of plugin `alpha` after it has been disabled. -/
def alphaRecordDisabled : PluginRecord :=
  { spec := r"@o/alpha".toList
    version := r"1.0.0".toList
    enabled := false
    installedAt := 0
    manifest := plainManifest }

/-- **C4 (counterexample).** With plugin `alpha` loaded and then
disabled in the store, re-running the load pass does not rebuild the
registry from scratch: the pass reports 1 plugin even though it loaded
none in this call, and `alpha`'s tools are still enumerated. -/
theorem loadPlugins_not_from_scratch :
    (loadPlugins (fun _ => none)
        (Except.ok ⟨[( r"alpha".toList, alphaRecordDisabled)]⟩)
        loadedAlphaPlain).2 = 1 ∧
    (getPluginTools (loadPlugins (fun _ => none)
        (Except.ok ⟨[( r"alpha".toList, alphaRecordDisabled)]⟩)
        loadedAlphaPlain).1).map AggTool.name = [ r"alpha_t".toList ] :=
  ⟨rfl, rfl⟩

theorem objGet_cons_pos {β : Type} (p : Str × β) (ps : List (Str × β))
    (k : Str) (h : p.1 = k) : objGet (p :: ps) k = some p.2 := by
  unfold objGet
  rw [List.find?_cons_of_pos _ (by simp [h])]
  rfl

theorem objGet_cons_neg {β : Type} (p : Str × β) (ps : List (Str × β))
    (k : Str) (h : ¬ p.1 = k) : objGet (p :: ps) k = objGet ps k := by
  unfold objGet
  rw [List.find?_cons_of_neg _ (by simp [h])]

theorem objGet_isSome_iff {β : Type} (m : List (Str × β)) (k : Str) :
    (objGet m k).isSome = true ↔ k ∈ m.map Prod.fst := by
  induction m with
  | nil => simp [objGet]
  | cons p ps ih =>
    by_cases h : p.1 = k
    · rw [objGet_cons_pos p ps k h]
      constructor
      · intro _
        rw [List.map_cons, ← h]
        exact List.mem_cons_self _ _
      · intro _
        rfl
    · rw [objGet_cons_neg p ps k h, ih]
      simp only [List.map_cons, List.mem_cons]
      constructor
      · exact fun hk => Or.inr hk
      · rintro (hk | hk)
        · exact absurd hk.symm h
        · exact hk

theorem objSet_keys {β : Type} (m : List (Str × β)) (k : Str) (v : β) :
    (objSet m k v).map Prod.fst =
      if k ∈ m.map Prod.fst then m.map Prod.fst else m.map Prod.fst ++ [k] := by
  unfold objSet
  by_cases h : (objGet m k).isSome = true
  · rw [if_pos h, if_pos ((objGet_isSome_iff m k).1 h), List.map_map]
    apply List.map_congr_left
    intro p _
    by_cases hp : p.1 = k
    · simp only [Function.comp_apply, if_pos hp]
      exact hp.symm
    · simp only [Function.comp_apply, if_neg hp]
  · rw [if_neg h, if_neg (fun hm => h ((objGet_isSome_iff m k).2 hm))]
    rw [List.map_append]
    rfl

theorem objSet_keys_mem {β : Type} (m : List (Str × β)) (k j : Str) (v : β)
    (h : j ∈ m.map Prod.fst) : j ∈ (objSet m k v).map Prod.fst := by
  rw [objSet_keys]
  by_cases hk : k ∈ m.map Prod.fst
  · rw [if_pos hk]
    exact h
  · rw [if_neg hk]
    exact List.mem_append_left _ h

theorem objSet_key_mem {β : Type} (m : List (Str × β)) (k : Str) (v : β) :
    k ∈ (objSet m k v).map Prod.fst := by
  rw [objSet_keys]
  by_cases hk : k ∈ m.map Prod.fst
  · rw [if_pos hk]
    exact hk
  · rw [if_neg hk]
    exact List.mem_append_right _ (List.mem_singleton.mpr rfl)

/-- The folding step of `loadPlugins`. -/
def loadStep (modules : Str → Option PluginModule)
    (acc : List (Str × LoadedPlugin)) (p : Str × PluginRecord) :
    List (Str × LoadedPlugin) :=
  match modules p.1 with
  | none => acc
  | some m => objSet acc p.1 ⟨m, p.2.manifest⟩

theorem loadStep_keys_mem (modules : Str → Option PluginModule)
    (acc : List (Str × LoadedPlugin)) (p : Str × PluginRecord) (j : Str)
    (h : j ∈ acc.map Prod.fst) :
    j ∈ (loadStep modules acc p).map Prod.fst := by
  unfold loadStep
  cases modules p.1 with
  | none => exact h
  | some m => exact objSet_keys_mem _ _ _ _ h

theorem loadFold_keys (modules : Str → Option PluginModule)
    (es : List (Str × PluginRecord)) (acc : List (Str × LoadedPlugin)) (j : Str)
    (h : j ∈ acc.map Prod.fst ∨
      ∃ p ∈ es, p.1 = j ∧ (modules j).isSome = true) :
    j ∈ (es.foldl (loadStep modules) acc).map Prod.fst := by
  induction es generalizing acc with
  | nil =>
    rcases h with h | ⟨p, hp, _⟩
    · exact h
    · exact absurd hp (List.not_mem_nil _)
  | cons p es ih =>
    rw [List.foldl_cons]
    rcases h with h | ⟨q, hq, hqj, hqs⟩
    · exact ih _ (Or.inl (loadStep_keys_mem modules acc p j h))
    · rcases List.mem_cons.1 hq with heq | hq2
      · subst heq
        obtain ⟨qn, qr⟩ := q
        have hqj2 : qn = j := hqj
        have hqs2 : (modules qn).isSome = true := by rw [hqj2]; exact hqs
        refine ih _ (Or.inl ?_)
        rw [← hqj2]
        show qn ∈ List.map Prod.fst (match modules qn with
          | none => acc
          | some m => objSet acc qn { module := m, manifest := qr.manifest })
        cases hmj : modules qn with
        | none =>
          rw [hmj] at hqs2
          simp at hqs2
        | some m => exact objSet_key_mem _ _ _
      · exact ih _ (Or.inr ⟨q, hq2, hqj, hqs⟩)

/-- **C4 (amended).** Each call of the load pass merges every enabled
plugin whose module loads into the existing in-memory registry,
retaining all previously loaded entries (so a disabled plugin's module —
and hence its tools — survives the pass until separately deleted), and
returns the total size of the registry after the merge, not the number
loaded in this call. -/
theorem loadPlugins_merges_registry (modules : Str → Option PluginModule)
    (raw : Except Unit Metadata) (loaded : List (Str × LoadedPlugin)) :
    (loadPlugins modules raw loaded).2 =
      (loadPlugins modules raw loaded).1.length ∧
    (∀ j, j ∈ loaded.map Prod.fst →
      j ∈ (loadPlugins modules raw loaded).1.map Prod.fst) ∧
    (∀ p ∈ (loadMetadata raw).plugins.filter (fun p => p.2.enabled),
      (modules p.1).isSome = true →
      p.1 ∈ (loadPlugins modules raw loaded).1.map Prod.fst) := by
  refine ⟨rfl, ?_, ?_⟩
  · intro j hj
    exact loadFold_keys modules _ loaded j (Or.inl hj)
  · intro p hp hm
    exact loadFold_keys modules _ loaded p.1 (Or.inr ⟨p, hp, rfl, hm⟩)

/-- Closed instance of `loadPlugins_merges_registry`: in the disabled
`alpha` scenario the previously loaded entry is retained by the pass. -/
theorem loadPlugins_merges_registry_witness :
    ( r"alpha".toList) ∈ (loadPlugins (fun _ => none)
      (Except.ok ⟨[( r"alpha".toList, alphaRecordDisabled)]⟩)
      loadedAlphaPlain).1.map Prod.fst :=
  (loadPlugins_merges_registry (fun _ => none)
    (Except.ok ⟨[( r"alpha".toList, alphaRecordDisabled)]⟩)
    loadedAlphaPlain).2.1 _ (by simp [loadedAlphaPlain])

/-- **C3.** Plugin installation is atomic: whenever `installPlugin`
fails — malformed spec, name conflict, clone failure, missing subpath,
missing or unparseable manifest, dependency-install failure — the error
propagates with the plugin store document unchanged (in particular any
earlier installation's record is unmodified), every directory existing
afterwards already existed before the call (no partial install is left),
the temporary fetch directory is not on disk, and the would-be permanent
plugin directory, fresh before the call, is still absent. -/
theorem installPlugin_rollback (env : InstallEnv) (tempDir : Str) (now : Nat)
    (disk : PMDisk) (spec : Str) (e : Str)
    (htemp : tempDir ∉ disk.dirs)
    (herr : (installPlugin env tempDir now disk spec).2 = Except.error e) :
    (installPlugin env tempDir now disk spec).1.raw = disk.raw ∧
    (∀ d, d ∈ (installPlugin env tempDir now disk spec).1.dirs →
      d ∈ disk.dirs ∧ d ≠ tempDir) ∧
    (∀ o rp sp, parseSpec spec = some (o, rp, sp) →
      pluginName o rp sp ∉ disk.dirs →
      pluginName o rp sp ∉ (installPlugin env tempDir now disk spec).1.dirs) := by
  have core : (installPlugin env tempDir now disk spec).1.raw = disk.raw ∧
      (∀ d, d ∈ (installPlugin env tempDir now disk spec).1.dirs →
        d ∈ disk.dirs ∧ d ≠ tempDir) := by
    have hsucc : ∀ v, (installPlugin env tempDir now disk spec).2 ≠ Except.ok v := by
      intro v hv
      rw [herr] at hv
      exact Except.noConfusion hv
    unfold installPlugin at hsucc ⊢
    cases hps : parseSpec spec with
    | none =>
      exact ⟨rfl, fun d hd => ⟨hd, fun hdt => htemp (hdt ▸ hd)⟩⟩
    | some triple =>
      obtain ⟨o, rp, sp⟩ := triple
      rw [hps] at hsucc
      by_cases hconf :
          (objGet (loadMetadata disk.raw).plugins (pluginName o rp sp)).isSome = true
      · simp only [hconf, if_true]
        exact ⟨trivial, fun d hd => ⟨hd, fun hdt => htemp (hdt ▸ hd)⟩⟩
      · simp only [hconf, if_false, Bool.false_eq_true] at hsucc ⊢
        by_cases hclone : env.cloneOk = false
        · simp only [hclone, if_true]
          by_cases hlt : env.cloneLeavesTemp = true
          · simp only [hlt, if_true]
            constructor
            · simp [installCleanup]
            · intro d hd
              simp only [installCleanup, List.mem_filter, List.mem_append,
                List.mem_singleton, decide_eq_true_eq] at hd
              constructor <;> tauto
          · simp only [hlt, Bool.false_eq_true, if_false]
            constructor
            · simp [installCleanup]
            · intro d hd
              simp only [installCleanup, List.mem_filter,
                decide_eq_true_eq] at hd
              constructor <;> tauto
        · simp only [hclone, Bool.true_eq_false, if_false] at hsucc ⊢
          cases sp with
          | some spv =>
            by_cases hsp : env.subpathPresent = false
            · simp only [hsp, if_true]
              constructor
              · simp [installCleanup]
              · intro d hd
                simp only [installCleanup, List.mem_filter, List.mem_append,
                  List.mem_singleton, decide_eq_true_eq] at hd
                constructor <;> tauto
            · simp only [hsp, Bool.true_eq_false, if_false] at hsucc ⊢
              by_cases hman : env.manifestPresent = false
              · simp only [hman, if_true]
                constructor
                · simp [installCleanup]
                · intro d hd
                  simp only [installCleanup, List.mem_filter, List.mem_append,
                    List.mem_singleton, decide_eq_true_eq] at hd
                  constructor <;> tauto
              · simp only [hman, Bool.true_eq_false, if_false] at hsucc ⊢
                cases hmp : env.manifestParsed with
                | error u =>
                  simp only [hmp]
                  constructor
                  · simp [installCleanup]
                  · intro d hd
                    simp only [installCleanup, List.mem_filter, List.mem_append,
                      List.mem_singleton, decide_eq_true_eq] at hd
                    constructor <;> tauto
                | ok manifest =>
                  rw [hmp] at hsucc
                  simp only [hmp]
                  by_cases hnpm : env.hasPackageJson = true ∧ env.npmOk = false
                  · simp only [hnpm, and_self, if_true]
                    constructor
                    · simp [installCleanup]
                    · intro d hd
                      simp only [installCleanup, List.mem_filter,
                        List.mem_append, List.mem_singleton,
                        decide_eq_true_eq] at hd
                      constructor <;> tauto
                  · exfalso
                    simp only [hnpm, if_false] at hsucc
                    exact hsucc _ rfl
          | none =>
            simp only [Bool.true_eq_false, if_false] at hsucc ⊢
            by_cases hman : env.manifestPresent = false
            · simp only [hman, if_true]
              constructor
              · simp [installCleanup]
              · intro d hd
                simp only [installCleanup, List.mem_filter, List.mem_append,
                  List.mem_singleton, decide_eq_true_eq] at hd
                constructor <;> tauto
            · simp only [hman, Bool.true_eq_false, if_false] at hsucc ⊢
              cases hmp : env.manifestParsed with
              | error u =>
                simp only [hmp]
                constructor
                · simp [installCleanup]
                · intro d hd
                  simp only [installCleanup, List.mem_filter, List.mem_append,
                    List.mem_singleton, decide_eq_true_eq] at hd
                  constructor <;> tauto
              | ok manifest =>
                rw [hmp] at hsucc
                simp only [hmp]
                by_cases hnpm : env.hasPackageJson = true ∧ env.npmOk = false
                · simp only [hnpm, and_self, if_true]
                  constructor
                  · simp [installCleanup]
                  · intro d hd
                    simp only [installCleanup, List.mem_filter,
                      List.mem_append, List.mem_singleton,
                      decide_eq_true_eq] at hd
                    constructor <;> tauto
                · exfalso
                  simp only [hnpm, if_false] at hsucc
                  exact hsucc _ rfl
  refine ⟨core.1, core.2, ?_⟩
  intro o rp sp _ hfresh hmem
  exact hfresh (core.2 _ hmem).1

/-- Closed instance of `installPlugin_rollback`: installing `@o/p` where
the fetched tree has no `plugin.json` fails, leaves the store document
untouched and leaves neither `_temp_1` nor the plugin directory `o-p`
behind. -/
theorem installPlugin_rollback_witness :
    ( r"_temp_1".toList ∉ ([ r"other".toList ] : List Str)) ∧
    ((installPlugin
        { cloneOk := true, cloneLeavesTemp := false, subpathPresent := true,
          manifestPresent := false, manifestParsed := Except.error (),
          hasPackageJson := false, npmOk := true }
        ( r"_temp_1".toList) 0 ⟨Except.ok ⟨[]⟩, [ r"other".toList ]⟩
        ( r"@o/p".toList)).1.raw = Except.ok (⟨[]⟩ : Metadata) ∧
      ∀ d, d ∈ (installPlugin
        { cloneOk := true, cloneLeavesTemp := false, subpathPresent := true,
          manifestPresent := false, manifestParsed := Except.error (),
          hasPackageJson := false, npmOk := true }
        ( r"_temp_1".toList) 0 ⟨Except.ok ⟨[]⟩, [ r"other".toList ]⟩
        ( r"@o/p".toList)).1.dirs →
        d ∈ [ r"other".toList ] ∧ d ≠ r"_temp_1".toList) := by
  constructor
  · decide
  · have h := installPlugin_rollback
      { cloneOk := true, cloneLeavesTemp := false, subpathPresent := true,
        manifestPresent := false, manifestParsed := Except.error (),
        hasPackageJson := false, npmOk := true }
      ( r"_temp_1".toList) 0 ⟨Except.ok ⟨[]⟩, [ r"other".toList ]⟩
      ( r"@o/p".toList) ( r"Plugin manifest (plugin.json) not found".toList)
      (by decide) (by rfl)
    exact ⟨h.1, h.2.1⟩

/-! ## The MCP server (src/plugin-server.js 274-520) -/

/-- A backend (GitHub MCP) tool as received from its `tools/list`. -/
structure BackendTool where
  name : Str
  description : Str
  inputSchema : Option Schema

/-- `optimizeTools(tools)` (src/plugin-server.js 263-269): compress each
description and simplify each schema. -/
def optimizeTools (tools : List BackendTool) : List AggTool :=
  tools.map (fun t =>
    { name := t.name
      description := compressDescription t.description
      inputSchema := simplifySchemaOpt t.inputSchema
      pluginName := none })

/-- An object schema with the given properties and required names. -/
def objectSchema (props : List (Str × Schema)) (req : Option (List Str)) :
    Schema :=
  Schema.mk (some ( r"object".toList)) none none none (some props) req

/-- A string property schema carrying a description. -/
def stringSchema (d : Str) : Schema :=
  Schema.mk (some ( r"string".toList)) (some d) none none none none

/-- `getPluginManagementTools()` (src/plugin-server.js 274-355): the six
fixed management tool descriptors, in source order. -/
def getPluginManagementTools : List AggTool :=
  [ { name := r"plugin_list".toList
      description := r"List installed Copilot CLI plugins".toList
      inputSchema := some (objectSchema [] none)
      pluginName := none },
    { name := r"plugin_install".toList
      description := r"Install plugin from GitHub (@owner/repo)".toList
      inputSchema := some (objectSchema
        [( r"spec".toList, stringSchema
            ( r"Plugin spec: @owner/repo or @owner/repo/subpath".toList))]
        (some [ r"spec".toList ]))
      pluginName := none },
    { name := r"plugin_uninstall".toList
      description := r"Uninstall a plugin".toList
      inputSchema := some (objectSchema
        [( r"name".toList, stringSchema ( r"Plugin name".toList))]
        (some [ r"name".toList ]))
      pluginName := none },
    { name := r"plugin_enable".toList
      description := r"Enable a disabled plugin".toList
      inputSchema := some (objectSchema
        [( r"name".toList, stringSchema ( r"Plugin name".toList))]
        (some [ r"name".toList ]))
      pluginName := none },
    { name := r"plugin_disable".toList
      description := r"Disable an enabled plugin".toList
      inputSchema := some (objectSchema
        [( r"name".toList, stringSchema ( r"Plugin name".toList))]
        (some [ r"name".toList ]))
      pluginName := none },
    { name := r"plugin_info".toList
      description := r"Get detailed info about a plugin".toList
      inputSchema := some (objectSchema
        [( r"name".toList, stringSchema ( r"Plugin name".toList))]
        (some [ r"name".toList ]))
      pluginName := none } ]

/-- The server's mutable state: the plugin manager's disk world and
in-memory registry, and the backend tool list fetched at startup. -/
structure ServerState where
  disk : PMDisk
  loaded : List (Str × LoadedPlugin)
  githubTools : List BackendTool

/-- The server's external world: install oracles, module loading,
`JSON.stringify` (for the two info texts), and the backend client's
`callTool` outcome (a timeout rejection when no reply arrives). -/
structure ServerEnv where
  installEnv : InstallEnv
  tempDir : Str
  now : Nat
  modules : Str → Option PluginModule
  stringifyPlugins : List (Str × PluginRecord) → Str
  stringifyInfo : Str × PluginRecord → Str
  backend : Str → Option JsonV → Except Str JsonV

/-- A `{ content: [{ type: 'text', text }] }` tool result. -/
def textContent (txt : Str) : JsonV :=
  JsonV.obj [( r"content".toList, JsonV.arr [JsonV.obj
    [( r"type".toList, JsonV.str ( r"text".toList)),
     ( r"text".toList, JsonV.str txt)]])]

/-- `args.f` for a string-valued field of the optional arguments object;
`none` models JavaScript `undefined`. -/
def argStr (args : Option JsonV) (f : Str) : Option Str :=
  match args with
  | some (JsonV.obj fields) =>
    match objGet fields f with
    | some (JsonV.str s) => some s
    | _ => none
  | _ => none

/-- `handlePluginTool(toolName, args)` (src/plugin-server.js 360-426):
the six management operations against the plugin manager — install and
enable re-run `loadPlugins()`, uninstall and disable delete the map
entry directly — and an unknown `plugin_`-prefixed name throws. -/
def handlePluginTool (env : ServerEnv) (st : ServerState) (toolName : Str)
    (args : Option JsonV) : ServerState × Except Str JsonV :=
  if toolName = r"plugin_list".toList then
    (st, Except.ok (textContent (env.stringifyPlugins (listPlugins st.disk.raw))))
  else if toolName = r"plugin_install".toList then
    match argStr args ( r"spec".toList) with
    | none =>
      -- `installPlugin(undefined)` throws a TypeError on `spec.match`
      (st, Except.error ( r"TypeError: spec.match is not a function".toList))
    | some spec =>
      let res := installPlugin env.installEnv env.tempDir env.now st.disk spec
      match res.2 with
      | Except.error e => ({ st with disk := res.1 }, Except.error e)
      | Except.ok r =>
        let reloaded := loadPlugins env.modules res.1.raw st.loaded
        ({ st with disk := res.1, loaded := reloaded.1 },
          Except.ok (textContent ( r"✅ Installed plugin: ".toList ++ r.name ++
            "\nVersion: ".toList ++ r.version ++ "\n".toList ++ r.description)))
  else if toolName = r"plugin_uninstall".toList then
    -- `args.name` being undefined looks up the object key "undefined"
    let name := (argStr args ( r"name".toList)).getD ( r"undefined".toList)
    match uninstallPlugin st.disk name with
    | Except.error e => (st, Except.error e)
    | Except.ok (disk2, _) =>
      ({ st with disk := disk2, loaded := objDelete st.loaded name },
        Except.ok (textContent ( r"✅ Uninstalled plugin: ".toList ++ name)))
  else if toolName = r"plugin_enable".toList then
    let name := (argStr args ( r"name".toList)).getD ( r"undefined".toList)
    match enablePlugin st.disk name with
    | Except.error e => (st, Except.error e)
    | Except.ok (disk2, _) =>
      let reloaded := loadPlugins env.modules disk2.raw st.loaded
      ({ st with disk := disk2, loaded := reloaded.1 },
        Except.ok (textContent ( r"✅ Enabled plugin: ".toList ++ name)))
  else if toolName = r"plugin_disable".toList then
    let name := (argStr args ( r"name".toList)).getD ( r"undefined".toList)
    match disablePlugin st.disk name with
    | Except.error e => (st, Except.error e)
    | Except.ok (disk2, _) =>
      ({ st with disk := disk2, loaded := objDelete st.loaded name },
        Except.ok (textContent ( r"✅ Disabled plugin: ".toList ++ name)))
  else if toolName = r"plugin_info".toList then
    let name := (argStr args ( r"name".toList)).getD ( r"undefined".toList)
    match getPluginInfo st.disk name with
    | Except.error e => (st, Except.error e)
    | Except.ok info => (st, Except.ok (textContent (env.stringifyInfo info)))
  else
    (st, Except.error ( r"Unknown plugin tool: ".toList ++ toolName))

/-- A parsed `tools/call` parameter object. -/
structure Params where
  name : Option Str
  arguments : Option JsonV

/-- A successfully parsed JSON-RPC request. -/
structure Request where
  id : Option Int
  method : Str
  params : Option Params

/-- The payload of a successful reply. -/
inductive ResultPayload where
  | initInfo
  | toolCatalog (tools : List AggTool)
  | toolOutput (v : JsonV)

/-- A JSON-RPC reply: a result or an `{ code, message }` error, carrying
the request's id. -/
inductive Response where
  | result (id : Option Int) (r : ResultPayload)
  | error (id : Option Int) (code : Int) (message : Str)

/-- The `tools/list` aggregation (src/plugin-server.js 452-458): backend
tools (compressed), then the six management tools, then plugin tools. -/
def aggregateTools (st : ServerState) : List AggTool :=
  optimizeTools st.githubTools ++ getPluginManagementTools ++
    getPluginTools st.loaded

/-- `handleRequest(request)` (src/plugin-server.js 431-520): the three
known methods, with `tools/call` routed by prefix test, plugin-tool
lookup, then backend proxy; the surrounding `try`/`catch` converts any
thrown error into a `-32603` reply, and an unknown method yields
`-32601`. -/
def handleRequest (env : ServerEnv) (st : ServerState) (req : Request) :
    ServerState × Response :=
  if req.method = r"initialize".toList then
    (st, Response.result req.id ResultPayload.initInfo)
  else if req.method = r"tools/list".toList then
    (st, Response.result req.id (ResultPayload.toolCatalog (aggregateTools st)))
  else if req.method = r"tools/call".toList then
    match req.params with
    | none =>
      -- destructuring `const { name, arguments } = params` throws
      (st, Response.error req.id (-32603)
        ( r"TypeError: cannot destructure params".toList))
    | some ps =>
      match ps.name with
      | none =>
        -- `toolName.startsWith` called on undefined throws
        (st, Response.error req.id (-32603)
          ( r"TypeError: toolName.startsWith is not a function".toList))
      | some toolName =>
        if ( r"plugin_".toList).isPrefixOf toolName then
          let r := handlePluginTool env st toolName ps.arguments
          match r.2 with
          | Except.ok v =>
            (r.1, Response.result req.id (ResultPayload.toolOutput v))
          | Except.error e => (r.1, Response.error req.id (-32603) e)
        else if (getPluginTools st.loaded).any
            (fun t => decide (t.name = toolName)) then
          match executePluginTool st.loaded toolName ps.arguments with
          | Except.ok v =>
            (st, Response.result req.id (ResultPayload.toolOutput v))
          | Except.error e => (st, Response.error req.id (-32603) e)
        else
          match env.backend toolName ps.arguments with
          | Except.ok v =>
            (st, Response.result req.id (ResultPayload.toolOutput v))
          | Except.error e => (st, Response.error req.id (-32603) e)
  else
    (st, Response.error req.id (-32601)
      ( r"Method not found: ".toList ++ req.method))

/-- Two sample backend tools. -/
def exampleBackendTools : List BackendTool :=
  [ { name := r"gh1".toList, description := r"first".toList,
      inputSchema := none },
    { name := r"gh2".toList, description := r"second".toList,
      inputSchema := none } ]

/-- A server state with 2 backend tools and 1 loaded plugin tool. -/
def exampleState : ServerState :=
  { disk := ⟨Except.ok ⟨[]⟩, []⟩
    loaded := loadedAlphaPlain
    githubTools := exampleBackendTools }

/-- **C6.** The aggregated `tools/list` result is exactly the
concatenation, in fixed order, of the compressed backend tools, the six
fixed management tools (list/install/uninstall/enable/disable/info), and
the plugin tools, with no de-duplication by name: its length is always
`#backend + 6 + #plugin`; concretely, with 2 backend tools and 1 plugin
tool the list is the 9 names in that order. -/
theorem toolsList_aggregation :
    (∀ st : ServerState,
      aggregateTools st =
        optimizeTools st.githubTools ++ getPluginManagementTools ++
          getPluginTools st.loaded ∧
      (aggregateTools st).length =
        st.githubTools.length + 6 + (getPluginTools st.loaded).length) ∧
    getPluginManagementTools.map AggTool.name =
      [ r"plugin_list".toList, r"plugin_install".toList,
        r"plugin_uninstall".toList, r"plugin_enable".toList,
        r"plugin_disable".toList, r"plugin_info".toList ] ∧
    (aggregateTools exampleState).map AggTool.name =
      [ r"gh1".toList, r"gh2".toList,
        r"plugin_list".toList, r"plugin_install".toList,
        r"plugin_uninstall".toList, r"plugin_enable".toList,
        r"plugin_disable".toList, r"plugin_info".toList,
        r"alpha_t".toList ] ∧
    (aggregateTools exampleState).length = 9 := by
  refine ⟨fun st => ⟨rfl, ?_⟩, rfl, rfl, rfl⟩
  simp [aggregateTools, optimizeTools, getPluginManagementTools]
  omega

/-- A module exposing one tool `custom` with a working executor. -/
def customModule : PluginModule :=
  { getTools := some (Except.ok
      [{ name := r"custom".toList, description := r"d".toList,
         inputSchema := none }])
    executeTool := some (fun _ _ => Except.ok (JsonV.str ( r"ok".toList)))
    manifestProp := none }

/-- Registry with plugin `p` whose manifest namespace is `plugin`, so
its tool is enumerated as `plugin_custom`. -/
def loadedPluginNs : List (Str × LoadedPlugin) :=
  [( r"p".toList,
     { module := customModule, manifest := ⟨none, none, some ( r"plugin".toList)⟩ })]

/-- A concrete server environment whose backend call times out. -/
def cexEnv : ServerEnv :=
  { installEnv :=
      { cloneOk := false, cloneLeavesTemp := false, subpathPresent := false,
        manifestPresent := false, manifestParsed := Except.error (),
        hasPackageJson := false, npmOk := false }
    tempDir := r"_temp_0".toList
    now := 0
    modules := fun _ => none
    stringifyPlugins := fun _ => []
    stringifyInfo := fun _ => []
    backend := fun _ _ => Except.error ( r"Tool execution timeout".toList) }

/-- A concrete server state: no backend tools, plugin `p` loaded. -/
def cexState : ServerState :=
  { disk := ⟨Except.ok ⟨[]⟩, []⟩
    loaded := loadedPluginNs
    githubTools := [] }

/-- **C5 (counterexample).** `plugin_custom` is a currently loaded
plugin tool (plugin `p` declares namespace `plugin`) and is none of the
six management operations, and delegating to the plugin executor would
succeed; yet the dispatcher answers this `plugin_`-prefixed name locally
with the unknown-plugin-tool error — so the claimed precedence
"management operations, then loaded plugin tools, then backend" is wrong
about which names the first branch captures. -/
theorem toolsCall_routing_counterexample :
    ((getPluginTools cexState.loaded).map AggTool.name =
      [ r"plugin_custom".toList ]) ∧
    ( r"plugin_custom".toList ∉ getPluginManagementTools.map AggTool.name) ∧
    executePluginTool cexState.loaded ( r"plugin_custom".toList) none =
      Except.ok (JsonV.str ( r"ok".toList)) ∧
    (handleRequest cexEnv cexState
        ⟨some 1, r"tools/call".toList,
          some ⟨some ( r"plugin_custom".toList), none⟩⟩).2 =
      Response.error (some 1) (-32603)
        ( r"Unknown plugin tool: plugin_custom".toList) := by
  refine ⟨rfl, by decide, rfl, rfl⟩

/-- **C5 (amended).** `tools/call` routing precedence for every name: a
name beginning with the management prefix `plugin_` is handled locally
by the management handler (one of the six operations runs; any other
`plugin_`-prefixed name yields the unknown-plugin-tool error); otherwise
a name matching a currently enumerated plugin tool is delegated to
`executePluginTool`; otherwise the call is forwarded to the backend
client — in exactly that order. -/
theorem toolsCall_routing (env : ServerEnv) (st : ServerState)
    (id : Option Int) (toolName : Str) (args : Option JsonV) :
    handleRequest env st
        ⟨id, r"tools/call".toList, some ⟨some toolName, args⟩⟩ =
      (if ( r"plugin_".toList).isPrefixOf toolName then
        match (handlePluginTool env st toolName args).2 with
        | Except.ok v => ((handlePluginTool env st toolName args).1,
            Response.result id (ResultPayload.toolOutput v))
        | Except.error e => ((handlePluginTool env st toolName args).1,
            Response.error id (-32603) e)
      else if (getPluginTools st.loaded).any
          (fun t => decide (t.name = toolName)) then
        match executePluginTool st.loaded toolName args with
        | Except.ok v => (st, Response.result id (ResultPayload.toolOutput v))
        | Except.error e => (st, Response.error id (-32603) e)
      else
        match env.backend toolName args with
        | Except.ok v => (st, Response.result id (ResultPayload.toolOutput v))
        | Except.error e => (st, Response.error id (-32603) e)) := rfl

/-- **C7.** For every successfully parsed request the dispatcher emits
exactly one structured reply carrying the request's id: a result, a
`-32603` error, or — exactly for an unknown method — a `-32601` error
with the method-not-found message; and any error value produced while
routing a `tools/call` (here: the backend rejection for a name unknown
to every source, e.g. its timeout) is propagated as a `-32603` reply
with that error's message rather than crashing or hanging. -/
theorem handleRequest_error_contract (env : ServerEnv) (st : ServerState)
    (req : Request) :
    ((∃ p, (handleRequest env st req).2 = Response.result req.id p) ∨
     (∃ m, (handleRequest env st req).2 = Response.error req.id (-32603) m) ∨
     (handleRequest env st req).2 = Response.error req.id (-32601)
        ( r"Method not found: ".toList ++ req.method)) ∧
    (req.method ≠ r"initialize".toList →
     req.method ≠ r"tools/list".toList →
     req.method ≠ r"tools/call".toList →
      (handleRequest env st req).2 = Response.error req.id (-32601)
        ( r"Method not found: ".toList ++ req.method)) ∧
    (∀ id toolName args e,
      req = ⟨id, r"tools/call".toList, some ⟨some toolName, args⟩⟩ →
      ¬(( r"plugin_".toList).isPrefixOf toolName = true) →
      ¬((getPluginTools st.loaded).any
          (fun t => decide (t.name = toolName)) = true) →
      env.backend toolName args = Except.error e →
      (handleRequest env st req).2 = Response.error req.id (-32603) e) := by
  obtain ⟨rid, method, params⟩ := req
  refine ⟨?_, ?_, ?_⟩
  · unfold handleRequest
    by_cases h1 : method = r"initialize".toList
    · rw [if_pos h1]
      exact Or.inl ⟨_, rfl⟩
    · rw [if_neg h1]
      by_cases h2 : method = r"tools/list".toList
      · rw [if_pos h2]
        exact Or.inl ⟨_, rfl⟩
      · rw [if_neg h2]
        by_cases h3 : method = r"tools/call".toList
        · rw [if_pos h3]
          cases params with
          | none => exact Or.inr (Or.inl ⟨_, rfl⟩)
          | some ps =>
            obtain ⟨pname, pargs⟩ := ps
            cases pname with
            | none => exact Or.inr (Or.inl ⟨_, rfl⟩)
            | some toolName =>
              dsimp only
              by_cases h4 : (( r"plugin_".toList).isPrefixOf toolName) = true
              · rw [if_pos h4]
                cases (handlePluginTool env st toolName pargs).2 with
                | ok v => exact Or.inl ⟨_, rfl⟩
                | error e => exact Or.inr (Or.inl ⟨_, rfl⟩)
              · rw [if_neg h4]
                by_cases h5 : ((getPluginTools st.loaded).any
                    (fun t => decide (t.name = toolName))) = true
                · rw [if_pos h5]
                  cases executePluginTool st.loaded toolName pargs with
                  | ok v => exact Or.inl ⟨_, rfl⟩
                  | error e => exact Or.inr (Or.inl ⟨_, rfl⟩)
                · rw [if_neg h5]
                  cases env.backend toolName pargs with
                  | ok v => exact Or.inl ⟨_, rfl⟩
                  | error e => exact Or.inr (Or.inl ⟨_, rfl⟩)
        · rw [if_neg h3]
          exact Or.inr (Or.inr rfl)
  · intro h1 h2 h3
    unfold handleRequest
    rw [if_neg h1, if_neg h2, if_neg h3]
  · intro id toolName args e hreq h4 h5 hbackend
    simp only [Request.mk.injEq] at hreq
    obtain ⟨rfl, rfl, rfl⟩ := hreq
    rw [toolsCall_routing, if_neg h4, if_neg h5, hbackend]

/-- Closed instance of `handleRequest_error_contract`: calling
`bogus_tool`, unknown to every source, with the backend timing out,
yields the structured `-32603` timeout error reply. -/
theorem handleRequest_error_contract_witness :
    (handleRequest cexEnv cexState
        ⟨some 5, r"tools/call".toList,
          some ⟨some ( r"bogus_tool".toList), none⟩⟩).2 =
      Response.error (some 5) (-32603) ( r"Tool execution timeout".toList) := by
  have h := (handleRequest_error_contract cexEnv cexState
    ⟨some 5, r"tools/call".toList,
      some ⟨some ( r"bogus_tool".toList), none⟩⟩).2.2
  exact h (some 5) ( r"bogus_tool".toList) none _ rfl (by decide) (by decide) rfl
